import Mathlib

/-!
Verification development for the pm-competitive-radar repository.

The Python sources are shallowly embedded: each Python function the claims
touch becomes a Lean definition over explicit record types.  Records model a
JSON object through the values the code actually reads via `dict.get`; an
`Option String` field uses `none` for a JSON `null` (Python `None`) and
`some s` for a string (a missing key is folded into the `.get` default).
Fallible Python code (code that can raise) returns `Except Unit`.
ASCII text is assumed throughout (the analyser's keyword tables and the
claims' scenarios are all ASCII), so Python's `str.lower` is modelled by
`String.toLower` and the regex `\w` by ASCII alphanumerics and underscore.
-/

/-- Boolean test that `pat` occurs at the start of `s` (character lists). -/
def startsWithChars : List Char → List Char → Bool
  | [], _ => true
  | _ :: _, [] => false
  | a :: as, b :: bs => a == b && startsWithChars as bs

/-- Boolean test that `pat` occurs somewhere inside `s` (character lists);
models Python's substring operator `pat in s`. -/
def occursInChars (pat : List Char) : List Char → Bool
  | [] => startsWithChars pat []
  | b :: bs => startsWithChars pat (b :: bs) || occursInChars pat bs

/-- Python's `pat in s` on strings. -/
def strContains (s pat : String) : Bool :=
  occursInChars pat.data s.data

/-- Python's `s.split('\n')` on character lists: `""` splits to `[""]`,
a trailing separator yields a trailing empty chunk. -/
def splitNlChars : List Char → List (List Char)
  | [] => [[]]
  | c :: cs =>
    if c = '\n' then [] :: splitNlChars cs
    else
      match splitNlChars cs with
      | [] => [[c]]
      | l :: ls => (c :: l) :: ls

/-- Python's `s.split('\n')` on strings. -/
def splitNl (s : String) : List String :=
  (splitNlChars s.data).map fun l => String.mk l

/-- A word character for Python's regex `\w` (ASCII fragment). -/
def isWordChar (c : Char) : Bool :=
  c.isAlphanum || c == '_'

/-- Accumulator-based scanner extracting the maximal runs of word characters;
`cur` holds the current run reversed. -/
def tokenizeAux : Option (List Char) → List Char → List (List Char)
  | cur, [] =>
    match cur with
    | some r => [r.reverse]
    | none => []
  | cur, c :: cs =>
    if isWordChar c then tokenizeAux (some (c :: cur.getD [])) cs
    else
      match cur with
      | some r => r.reverse :: tokenizeAux none cs
      | none => tokenizeAux none cs

/-- Python's `re.findall(r'\b\w+\b', s)`: the maximal runs of word
characters of `s`, in order. -/
def pyFindWords (s : String) : List String :=
  (tokenizeAux none s.data).map fun l => String.mk l

/-- Python's `str.capitalize`: first character upper-cased, the rest
lower-cased. -/
def pyCapitalize (s : String) : String :=
  match s.data with
  | [] => ""
  | c :: cs => String.mk (c.toUpper :: cs.map Char.toLower)

/-- Python's `s.lower()` (ASCII fragment, code-point map). -/
def pyLower (s : String) : String :=
  String.mk (s.data.map Char.toLower)

/-- Python's `s[:n]` on strings (slices by code point). -/
def pyTake (n : Nat) (s : String) : String :=
  String.mk (s.data.take n)

/-- Python's `len(s)` (code points). -/
def pyLen (s : String) : Nat :=
  s.data.length

/-- Python's `s.strip()`: whitespace removed from both ends. -/
def pyStrip (s : String) : String :=
  String.mk (((s.data.dropWhile Char.isWhitespace).reverse.dropWhile
    Char.isWhitespace).reverse)

/-- One step of `collections.Counter.update`: increment the entry for `w`,
or append a fresh entry `(w, 1)` at the end (dict insertion order). -/
def bump : List (String × Nat) → String → List (String × Nat)
  | [], w => [(w, 1)]
  | (k, v) :: rest, w =>
    if k == w then (k, v + 1) :: rest else (k, v) :: bump rest w

/-- `collections.Counter(ws)` as an association list in first-insertion
order. -/
def counterOf (ws : List String) : List (String × Nat) :=
  ws.foldl bump []

/-- Stable insertion (descending by count): the new pair goes before the
first existing pair whose count is not larger, so earlier-inserted pairs
win ties.  This is the ordering `heapq.nlargest` (hence
`Counter.most_common`) produces. -/
def insertDesc (p : String × Nat) : List (String × Nat) → List (String × Nat)
  | [] => [p]
  | q :: qs => if p.2 ≥ q.2 then p :: q :: qs else q :: insertDesc p qs

/-- Stable sort, descending by count. -/
def sortDesc : List (String × Nat) → List (String × Nat)
  | [] => []
  | p :: ps => insertDesc p (sortDesc ps)

/-- `Counter.most_common(n)`: the `n` highest-count entries, counts
descending, ties by first insertion. -/
def mostCommon (n : Nat) (c : List (String × Nat)) : List (String × Nat) :=
  (sortDesc c).take n

/-- A completed HTTP response: status code and parsed JSON payload. -/
structure HttpResp (α : Type) where
  status : Nat
  data : α
deriving Repr, DecidableEq

namespace RealData

/-- A GitHub release object as `real_data_app.analyze_releases` observes it
through `dict.get`: `draft` is the truthiness of `release.get("draft",
False)`; `tag_name` is `release.get("tag_name", "Unknown")` (so a missing
key is already `some "Unknown"`, and `none` is a JSON `null`);
`published_at` is `release.get("published_at", "")` likewise; `body` is
`release.get("body", "")` (`some ""` for a missing key, `none` for JSON
`null`). -/
structure PyRelease where
  draft : Bool
  tag_name : Option String
  published_at : Option String
  body : Option String
deriving Repr, DecidableEq

/-- The per-release dict built at real_data_app.py lines 64-68. -/
structure ReleaseSummary where
  version : Option String
  date : String
  description : String
deriving Repr, DecidableEq

/-- The dict returned by `analyze_releases` (lines 84-88). -/
structure ReleaseAnalysis where
  recent_releases : List ReleaseSummary
  key_features : List String
  breaking_changes : List String
deriving Repr, DecidableEq

/-- `release.get("published_at", "")[:10] if release.get("published_at")
else ""` (line 66): both `None` and `""` are falsy. -/
def pubDate : Option String → String
  | none => ""
  | some s => if s.data.isEmpty then "" else pyTake 10 s

/-- Lines 64-68: the release summary for a non-draft release whose body is
the string `b`. -/
def mkSummary (r : PyRelease) (b : String) : ReleaseSummary :=
  { version := r.tag_name
    date := pubDate r.published_at
    description := if pyLen b > 200 then pyTake 200 b ++ "..." else b }

def featureKeywords : List String := ["feature", "new", "add", "implement"]

def breakingKeywords : List String := ["breaking", "deprecated", "removed"]

/-- Lines 72-76 (and the mirrored 79-82): lower-case the body, and if any
keyword occurs in it, keep the first 2 lines whose lower-casing contains a
keyword, each stripped. -/
def extractLines (kws : List String) (b : String) : List String :=
  let body := pyLower b
  if kws.any fun w => strContains body w then
    ((((splitNl body).filter fun line =>
        kws.any fun w => strContains (pyLower line) w).map pyStrip).take 2)
  else []

/-- The loop of `analyze_releases` (lines 62-82), accumulating the release
summaries, feature lines and breaking-change lines in encounter order.
A non-draft release whose `body` is JSON `null` raises `TypeError` at line
67 (`len(None)`), modelled by `Except.error`. -/
def analyzeReleasesAux :
    List PyRelease → Except Unit (List ReleaseSummary × List String × List String)
  | [] => .ok ([], [], [])
  | r :: rs =>
    if r.draft then analyzeReleasesAux rs
    else
      match r.body with
      | none => .error ()
      | some b => do
        let (s, f, brk) ← analyzeReleasesAux rs
        .ok (mkSummary r b :: s,
             extractLines featureKeywords b ++ f,
             extractLines breakingKeywords b ++ brk)

/-- `analyze_releases` (real_data_app.py lines 56-88).  `list(set(xs))`
iterates a Python set in unspecified order; it is modelled as
first-occurrence deduplication (`List.eraseDups`), which agrees with the
code up to a permutation of the deduplicated list. -/
def analyzeReleases (releases : List PyRelease) : Except Unit ReleaseAnalysis := do
  let (s, f, brk) ← analyzeReleasesAux releases
  .ok { recent_releases := s
        key_features := f.eraseDups.take 5
        breaking_changes := brk.eraseDups.take 3 }

/-- The feature (or breaking-change) lines accumulated across a release
list by the loop of lines 62-82: non-draft releases contribute their
extracted lines in order; a draft, or a body with no string value,
contributes nothing. -/
def collectLines (kws : List String) (rs : List PyRelease) : List String :=
  rs.flatMap fun r =>
    if r.draft then []
    else
      match r.body with
      | some b => extractLines kws b
      | none => []

/-- A GitHub issue object as `analyze_issues` observes it: `title` is
`issue.get("title", "")` and `labels` is the list
`[label.get("name", "") for label in issue.get("labels", [])]`. -/
structure PyIssue where
  title : String
  labels : List String
deriving Repr, DecidableEq

/-- An entry of `recurring_issues` (line 126). -/
structure IssuePattern where
  pattern : String
  count : Nat
deriving Repr, DecidableEq

/-- The dict returned by `analyze_issues` (lines 128-132). -/
structure IssueAnalysis where
  recurring_issues : List IssuePattern
  critical_bugs : List String
  feature_requests : List String
deriving Repr, DecidableEq

def bugLabels : List String := ["bug", "error", "crash", "problem"]

def bugTitleWords : List String := ["bug", "error", "crash", "issue", "problem", "broken"]

def featureLabels : List String := ["enhancement", "feature", "request"]

def featureTitleWords : List String := ["feature", "request", "enhancement", "add", "support"]

/-- Lines 107-108: label equality or title-substring bug heuristic. -/
def isBug (i : PyIssue) : Bool :=
  (i.labels.any fun l => bugLabels.contains (pyLower l)) ||
  (bugTitleWords.any fun w => strContains (pyLower i.title) w)

/-- Lines 111-112: label equality or title-substring feature heuristic. -/
def isFeatureRequest (i : PyIssue) : Bool :=
  (i.labels.any fun l => featureLabels.contains (pyLower l)) ||
  (featureTitleWords.any fun w => strContains (pyLower i.title) w)

/-- Line 120: tokens longer than 4 characters that are not in the literal
stop list. -/
def importantWords (title : String) : List String :=
  (pyFindWords title).filter fun w =>
    pyLen w > 4 && !(["issue", "error", "problem"].contains w)

/-- `analyze_issues` (real_data_app.py lines 90-132). -/
def analyzeIssues (issues : List PyIssue) : IssueAnalysis :=
  if issues.isEmpty then
    { recurring_issues := [], critical_bugs := [], feature_requests := [] }
  else
    let bug_issues := (issues.filter isBug).map PyIssue.title
    let feature_requests := (issues.filter isFeatureRequest).map PyIssue.title
    let all_titles := issues.map fun i => pyLower i.title
    let word_counts := counterOf (all_titles.flatMap importantWords)
    let recurring_patterns :=
      ((mostCommon 5 word_counts).filter fun p => p.2 > 1).map
        fun p => IssuePattern.mk (pyCapitalize p.1) p.2
    { recurring_issues := recurring_patterns
      critical_bugs := bug_issues.take 5
      feature_requests := feature_requests.take 5 }

/-- The pattern-mining pipeline of lines 115-126, phrased over the bare
title list: lower-case every title, tokenize, keep the important tokens,
count them in first-insertion order, take the 5 most common (stable), keep
counts above 1, capitalize for display. -/
def recurringPipeline (titles : List String) : List IssuePattern :=
  ((mostCommon 5 (counterOf ((titles.map pyLower).flatMap importantWords))).filter
      fun p => p.2 > 1).map
    fun p => IssuePattern.mk (pyCapitalize p.1) p.2

end RealData

namespace RealData

/-- The fields of a per-repository analysis dict that the industry-insights
block of `display_streamlit_dashboard` reads (lines 206-210): its
`key_features` list and the `pattern` fields of its `recurring_issues`. -/
structure DashAnalysis where
  key_features : List String
  recurring_issues : List IssuePattern
deriving Repr, DecidableEq

/-- The hard-coded fallback trend list (line 218). -/
def defaultTrends : List String :=
  ["Performance optimizations", "Developer experience improvements", "TypeScript support"]

/-- Lines 206-209: pool every analysis's `key_features`. -/
def allFeatures (analyses : List DashAnalysis) : List String :=
  analyses.flatMap DashAnalysis.key_features

/-- Lines 213-218: count the pooled features, emit `"Common focus: "`
statements for the up-to-3 most common features seen more than once, and
fall back to the fixed default list when that is empty. -/
def industryTrends (analyses : List DashAnalysis) : List String :=
  let feature_counter := counterOf (allFeatures analyses)
  let trends :=
    ((mostCommon 3 feature_counter).filter fun p => p.2 > 1).map
      fun p => "Common focus: " ++ p.1
  if trends.isEmpty then defaultTrends else trends

/-- Lines 210, 214, 220: the analogous pooled-issue-pattern statements,
with no fallback. -/
def commonIssues (analyses : List DashAnalysis) : List String :=
  let all_issues := analyses.flatMap fun a => a.recurring_issues.map IssuePattern.pattern
  ((mostCommon 3 (counterOf all_issues)).filter fun p => p.2 > 1).map
    fun p => "Industry-wide: " ++ p.1 ++ " issues"

/-- The external outcomes of one `get_github_data` call: for each of the
two requests, either a completed response or `none` when the transport (or
`.json()`) raised. -/
structure FetchEnv where
  releasesResp : Option (HttpResp (List PyRelease))
  issuesResp : Option (HttpResp (List PyIssue))
deriving Repr, DecidableEq

/-- The dict returned by `get_github_data` (real_data_app.py lines 46-54). -/
structure GithubData where
  releases : List PyRelease
  issues : List PyIssue
  status : String
deriving Repr, DecidableEq

/-- `get_github_data` (real_data_app.py lines 14-54): a raised exception in
either request is caught by the surrounding `try` and yields the empty
`"error"` bundle; a non-200 status only empties that endpoint's list (after
an `st.error` message) and the bundle is still returned with status
`"success"`; releases are capped at 5. -/
def getGithubData (env : FetchEnv) : GithubData :=
  match env.releasesResp with
  | none => { releases := [], issues := [], status := "error" }
  | some rr =>
    let releases_data := if rr.status == 200 then rr.data else []
    match env.issuesResp with
    | none => { releases := [], issues := [], status := "error" }
    | some ir =>
      let issues_data := if ir.status == 200 then ir.data else []
      { releases := releases_data.take 5, issues := issues_data, status := "success" }

/-- The per-repository step of the dashboard loop (lines 181-201): only a
bundle whose status is `"success"` is analyzed; an `"error"` bundle makes
the loop skip the repository (no analysis is appended and the run
continues). -/
def processRepo (env : FetchEnv) : Option (Except Unit (ReleaseAnalysis × IssueAnalysis)) :=
  let gd := getGithubData env
  if gd.status == "success" then
    some (do
      let ra ← analyzeReleases gd.releases
      .ok (ra, analyzeIssues gd.issues))
  else none

end RealData

namespace Agno

/-- A GitHub release as `agno_app.get_github_data` reads it: every field is
the result of `release.get(field, "")`; `body` keeps the `none` case for a
JSON `null` (the other fields are only stored, never sliced, so a `null`
there cannot raise and is folded into the string model). -/
structure ReleaseIn where
  tag_name : String
  name : String
  body : Option String
  published_at : String
  html_url : String
deriving Repr, DecidableEq

/-- An entry of `limited_releases` (agno_app.py lines 109-115). -/
structure ReleaseOut where
  tag_name : String
  name : String
  body : String
  published_at : String
  html_url : String
deriving Repr, DecidableEq

/-- A GitHub issue as `agno_app.get_github_data` reads it; `body` is
`issue.get("body", "")` with `none` for JSON `null`. -/
structure IssueIn where
  title : String
  body : Option String
  labels : List String
  state : String
  created_at : String
  html_url : String
deriving Repr, DecidableEq

/-- An entry of `limited_issues` (agno_app.py lines 126-133). -/
structure IssueOut where
  title : String
  body : String
  labels : List String
  state : String
  created_at : String
  html_url : String
deriving Repr, DecidableEq

/-- The external outcomes of the two requests of one agno fetch. -/
structure FetchEnv where
  releasesResp : Option (HttpResp (List ReleaseIn))
  issuesResp : Option (HttpResp (List IssueIn))
deriving Repr, DecidableEq

/-- The dict returned by `agno_app.get_github_data` (the constant
`repository_url` field is omitted: it is a pure function of `owner`/`repo`
and carries no fetched text). -/
structure GithubData where
  releases : List ReleaseOut
  issues : List IssueOut
deriving Repr, DecidableEq

/-- Lines 109-115: truncate one release; `release.get("body", "")[:500]`
raises `TypeError` when the body is JSON `null`. -/
def truncRelease (r : ReleaseIn) : Except Unit ReleaseOut :=
  match r.body with
  | none => .error ()
  | some b => .ok ⟨r.tag_name, r.name, pyTake 500 b, r.published_at, r.html_url⟩

/-- Lines 126-133: truncate one issue; `(issue.get("body", "") or "")`
turns a `null` body into `""`, so this never raises. -/
def truncIssue (i : IssueIn) : IssueOut :=
  ⟨i.title, pyTake 200 (i.body.getD ""), i.labels.take 3, i.state, i.created_at, i.html_url⟩

/-- The `for release in releases_data[:3]` loop of lines 107-115,
building `limited_releases` in order; the first `null` body raises and the
exception propagates. -/
def mapTruncReleases : List ReleaseIn → Except Unit (List ReleaseOut)
  | [] => .ok []
  | r :: rs =>
    match truncRelease r with
    | .error e => .error e
    | .ok o =>
      match mapTruncReleases rs with
      | .error e => .error e
      | .ok os => .ok (o :: os)

/-- The body of the `try` block of `agno_app.get_github_data` (lines
101-139): releases capped at 3 and truncated, then issues fetched, capped
at 20 and truncated; an exception anywhere is propagated as `.error`. -/
def getGithubDataBody (env : FetchEnv) : Except Unit GithubData :=
  match env.releasesResp with
  | none => .error ()
  | some rr =>
    match mapTruncReleases (((if rr.status == 200 then rr.data else [])).take 3) with
    | .error e => .error e
    | .ok limited_releases =>
      match env.issuesResp with
      | none => .error ()
      | some ir =>
        .ok { releases := limited_releases,
              issues := ((if ir.status == 200 then ir.data else []).take 20).map truncIssue }

/-- `agno_app.get_github_data` (lines 93-142): any exception is caught and
yields the empty bundle. -/
def getGithubData (env : FetchEnv) : GithubData :=
  match getGithubDataBody env with
  | .ok d => d
  | .error _ => { releases := [], issues := [] }

end Agno

namespace CI

/-- The pydantic `Release` model of competitive_intelligence.py. -/
structure Release where
  project_name : String
  version : String
  description : String
  date : String
deriving Repr, DecidableEq

/-- The pydantic `IssuePattern` model. -/
structure IssuePattern where
  pattern : String
  count : Int
deriving Repr, DecidableEq

/-- The pydantic `CompetitorAnalysis` model. -/
structure CompetitorAnalysis where
  project_name : String
  recent_releases : List Release
  key_features : List String
  recurring_issues : List IssuePattern
deriving Repr, DecidableEq

/-- The pydantic `WeeklyReport` model.  Its fields are plain data, so the
pydantic `model_dump`/`model_validate` round trip is the identity; the
dumped dict is identified with the model itself. -/
structure WeeklyReport where
  report_date : String
  analyses : List CompetitorAnalysis
  industry_trends : List String
  recommendations : List String
deriving Repr, DecidableEq

/-- An entry of `session_state["reports"]` (lines 177-180): the week key
and the dumped report. -/
structure CacheEntry where
  week : String
  data : WeeklyReport
deriving Repr, DecidableEq

/-- `get_cached_report` (competitive_intelligence.py lines 131-136): a
linear scan of the cached entries returning the first whose week matches
(`WeeklyReport.model_validate` of its data); a missing `"reports"` key is
the empty list. -/
def getCachedReport (state : List CacheEntry) (week_key : String) : Option WeeklyReport :=
  match state.find? fun e => e.week == week_key with
  | some e => some e.data
  | none => none

/-- The observable outcome of one `run` call: the returned report, the
session cache afterwards, and how many repositories were fetched-and-
analyzed (each `analyze_competitor` call performs exactly one
`get_github_data` fetch). -/
structure RunOutcome where
  report : Option WeeklyReport
  state : List CacheEntry
  fetches : Nat
deriving Repr, DecidableEq

/-- Lines 147-182 of `run`, after the cache check: the per-competitor
results of `analyze_competitor` are supplied as an oracle list (one
`Option CompetitorAnalysis` per configured competitor), and the
report-generator agent as an oracle function.  Failures drop out via
`filterMap`; with no usable analysis, or a failed generation, the run
returns `None` without touching the cache; otherwise the report is
appended to the cache under the current week. -/
def runPipeline (state : List CacheEntry) (week : String)
    (results : List (Option CompetitorAnalysis))
    (gen : List CompetitorAnalysis → Option WeeklyReport) : RunOutcome :=
  let analyses := results.filterMap id
  if analyses.isEmpty then
    { report := none, state := state, fetches := results.length }
  else
    match gen analyses with
    | none => { report := none, state := state, fetches := results.length }
    | some wr =>
      { report := some wr
        state := state ++ [{ week := week, data := wr }]
        fetches := results.length }

/-- `run` (competitive_intelligence.py lines 138-182): with `use_cache` a
hit on the current week's key returns the cached report at once — zero
fetches, cache untouched; otherwise the full pipeline runs. -/
def run (state : List CacheEntry) (week : String) (use_cache : Bool)
    (results : List (Option CompetitorAnalysis))
    (gen : List CompetitorAnalysis → Option WeeklyReport) : RunOutcome :=
  if use_cache then
    match getCachedReport state week with
    | some r => { report := some r, state := state, fetches := 0 }
    | none => runPipeline state week results gen
  else runPipeline state week results gen

/-- A concrete competitor analysis used to instantiate witnesses. -/
def sampleAnalysis : CompetitorAnalysis :=
  { project_name := "SampleProj"
    recent_releases := []
    key_features := ["TypeScript support"]
    recurring_issues := [] }

/-- A concrete weekly report used to instantiate witnesses. -/
def sampleReport : WeeklyReport :=
  { report_date := "2025-10-12"
    analyses := [sampleAnalysis]
    industry_trends := []
    recommendations := [] }

/-- A second, distinct concrete weekly report. -/
def sampleReport2 : WeeklyReport :=
  { report_date := "2025-10-13"
    analyses := []
    industry_trends := []
    recommendations := [] }

end CI

/-- A 501-character release body used to exhibit the untruncated
pass-through of the real-data fetcher. -/
def longBody : String :=
  String.mk (List.replicate 501 'a')

/-! ### Association-list counter lemmas -/

theorem bump_keys (m : List (String × Nat)) (w : String) :
    (bump m w).map Prod.fst =
      if w ∈ m.map Prod.fst then m.map Prod.fst else m.map Prod.fst ++ [w] := by
  induction m with
  | nil => simp [bump]
  | cons q rest ih =>
    obtain ⟨k, v⟩ := q
    by_cases hk : k = w
    · subst hk
      simp [bump]
    · have hne : (k == w) = false := beq_eq_false_iff_ne.mpr hk
      simp only [bump, hne, Bool.false_eq_true, if_false, List.map_cons, ih]
      by_cases hw : w ∈ rest.map Prod.fst
      · simp [hw, List.mem_cons]
      · simp [hw, List.mem_cons, Ne.symm hk]

theorem bump_count (ws : List String) (w : String) :
    ∀ m : List (String × Nat),
      (m.map Prod.fst).Nodup →
      (∀ p ∈ m, p.2 = ws.count p.1) →
      (w ∉ m.map Prod.fst → ws.count w = 0) →
      ∀ q ∈ bump m w, q.2 = (ws ++ [w]).count q.1 := by
  have hcnt : ∀ x : String, (ws ++ [w]).count x
      = ws.count x + if w == x then 1 else 0 := by
    intro x
    rw [List.count_append]
    simp [List.count_cons]
  intro m
  induction m with
  | nil =>
    intro _ _ habs q hq
    simp only [bump, List.mem_singleton] at hq
    subst hq
    have h0 : ws.count w = 0 := habs (by simp)
    simp [hcnt, h0]
  | cons p rest ih =>
    obtain ⟨k, v⟩ := p
    intro hnd hc habs q hq
    have hnd' : (k :: rest.map Prod.fst).Nodup := by simpa using hnd
    have hndk : k ∉ rest.map Prod.fst := (List.nodup_cons.mp hnd').1
    have hndrest : (rest.map Prod.fst).Nodup := (List.nodup_cons.mp hnd').2
    by_cases hk : k = w
    · subst hk
      simp only [bump, beq_self_eq_true, if_true] at hq
      rcases List.mem_cons.mp hq with hq | hq
      · subst hq
        have hv : v = ws.count k := hc (k, v) (by simp)
        simp [hcnt, hv]
      · have hq1 : q.1 ≠ k := by
          intro heq
          exact hndk (heq ▸ List.mem_map_of_mem Prod.fst hq)
        have : (k == q.1) = false := beq_eq_false_iff_ne.mpr fun h => hq1 h.symm
        rw [hcnt, this]
        simpa using hc q (List.mem_cons_of_mem _ hq)
    · have hne : (k == w) = false := beq_eq_false_iff_ne.mpr hk
      simp only [bump, hne, Bool.false_eq_true, if_false] at hq
      rcases List.mem_cons.mp hq with hq | hq
      · subst hq
        have : (w == k) = false := beq_eq_false_iff_ne.mpr fun h => hk h.symm
        rw [hcnt, this]
        simpa using hc (k, v) (by simp)
      · refine ih hndrest (fun p hp => hc p (List.mem_cons_of_mem _ hp)) ?_ q hq
        intro hw
        refine habs ?_
        simp only [List.map_cons, List.mem_cons]
        rintro (h | h)
        · exact hk h.symm
        · exact hw h

theorem counterOf_append_singleton (ws : List String) (w : String) :
    counterOf (ws ++ [w]) = bump (counterOf ws) w := by
  simp [counterOf, List.foldl_append]

theorem counterOf_spec (ws : List String) :
    ((counterOf ws).map Prod.fst).Nodup ∧
    (∀ p ∈ counterOf ws, p.2 = ws.count p.1) ∧
    (∀ x ∈ ws, x ∈ (counterOf ws).map Prod.fst) := by
  induction ws using List.reverseRecOn with
  | nil => simp [counterOf]
  | append_singleton ws w ih =>
    obtain ⟨ihnd, ihc, ihmem⟩ := ih
    have habs : w ∉ (counterOf ws).map Prod.fst → ws.count w = 0 := by
      intro hnot
      rw [List.count_eq_zero]
      intro hmem
      exact hnot (ihmem w hmem)
    refine ⟨?_, ?_, ?_⟩
    · rw [counterOf_append_singleton, bump_keys]
      by_cases hw : w ∈ (counterOf ws).map Prod.fst
      · simpa [hw]
      · simp only [hw, if_false]
        refine List.Nodup.append ihnd (List.nodup_singleton w) ?_
        intro x hx hx'
        rw [List.mem_singleton] at hx'
        exact hw (hx' ▸ hx)
    · rw [counterOf_append_singleton]
      exact bump_count ws w (counterOf ws) ihnd ihc habs
    · intro x hx
      rw [counterOf_append_singleton, bump_keys]
      rcases List.mem_append.mp hx with hx | hx
      · by_cases hw : w ∈ (counterOf ws).map Prod.fst
        · simpa [hw] using ihmem x hx
        · simp only [hw, if_false]
          exact List.mem_append_left _ (ihmem x hx)
      · rw [List.mem_singleton] at hx
        subst hx
        by_cases hw : x ∈ (counterOf ws).map Prod.fst
        · simp [hw]
        · simp [hw]

theorem mem_counterOf_count {ws : List String} {p : String × Nat}
    (hp : p ∈ counterOf ws) : p.2 = ws.count p.1 :=
  (counterOf_spec ws).2.1 p hp

/-! ### Stable descending sort lemmas -/

theorem insertDesc_perm (p : String × Nat) (l : List (String × Nat)) :
    List.Perm (insertDesc p l) (p :: l) := by
  induction l with
  | nil => simp [insertDesc]
  | cons q qs ih =>
    by_cases h : p.2 ≥ q.2
    · simp [insertDesc, h]
    · simpa [insertDesc, h] using ((ih.cons q).trans (List.Perm.swap p q qs))

theorem mem_insertDesc {x p : String × Nat} {l : List (String × Nat)}
    (hx : x ∈ insertDesc p l) : x = p ∨ x ∈ l := by
  have := (insertDesc_perm p l).mem_iff.mp hx
  simpa using this

theorem sortDesc_perm (l : List (String × Nat)) : List.Perm (sortDesc l) l := by
  induction l with
  | nil => simp [sortDesc]
  | cons p ps ih => exact (insertDesc_perm p (sortDesc ps)).trans (ih.cons p)

theorem mem_sortDesc {x : String × Nat} {l : List (String × Nat)} :
    x ∈ sortDesc l ↔ x ∈ l :=
  (sortDesc_perm l).mem_iff

theorem insertDesc_sorted (p : String × Nat) {l : List (String × Nat)}
    (h : l.Pairwise fun a b => b.2 ≤ a.2) :
    (insertDesc p l).Pairwise fun a b => b.2 ≤ a.2 := by
  induction l with
  | nil => simp [insertDesc]
  | cons q qs ih =>
    rw [List.pairwise_cons] at h
    obtain ⟨hq, hqs⟩ := h
    by_cases hpq : p.2 ≥ q.2
    · simp only [insertDesc, hpq, if_true]
      refine List.pairwise_cons.mpr ⟨?_, List.pairwise_cons.mpr ⟨hq, hqs⟩⟩
      intro r hr
      rcases List.mem_cons.mp hr with hr | hr
      · exact hr ▸ hpq
      · exact le_trans (hq r hr) hpq
    · simp only [insertDesc, hpq, if_false]
      refine List.pairwise_cons.mpr ⟨?_, ih hqs⟩
      intro r hr
      rcases mem_insertDesc hr with hr | hr
      · exact hr ▸ le_of_not_ge hpq
      · exact hq r hr

theorem sortDesc_sorted (l : List (String × Nat)) :
    (sortDesc l).Pairwise fun a b => b.2 ≤ a.2 := by
  induction l with
  | nil => simp [sortDesc]
  | cons p ps ih => exact insertDesc_sorted p ih

theorem filter_insertDesc (c : Nat) (p : String × Nat) (l : List (String × Nat)) :
    (insertDesc p l).filter (fun q => q.2 == c) =
      if p.2 == c then p :: l.filter (fun q => q.2 == c)
      else l.filter (fun q => q.2 == c) := by
  induction l with
  | nil => simp only [insertDesc, List.filter_cons, List.filter_nil]
  | cons q qs ih =>
    by_cases hpq : p.2 ≥ q.2
    · simp only [insertDesc, hpq, if_true]
      by_cases hpc : p.2 = c
      · simp [List.filter_cons, hpc]
      · simp [List.filter_cons, hpc]
    · simp only [insertDesc, hpq, if_false]
      by_cases hpc : p.2 = c
      · have hqc : ¬ q.2 = c := by
          intro hq
          exact hpq (le_of_eq (hq.trans hpc.symm))
        simp [List.filter_cons, hqc, ih, hpc]
      · by_cases hqc : q.2 = c
        · simp [List.filter_cons, hqc, ih, hpc]
        · simp [List.filter_cons, hqc, ih, hpc]

theorem filter_sortDesc (c : Nat) (l : List (String × Nat)) :
    (sortDesc l).filter (fun q => q.2 == c) = l.filter (fun q => q.2 == c) := by
  induction l with
  | nil => simp [sortDesc]
  | cons p ps ih =>
    simp only [sortDesc, filter_insertDesc, ih, List.filter_cons]

/-! ### String helper lemmas -/

theorem string_data_append (a b : String) : (a ++ b).data = a.data ++ b.data := by
  cases a
  cases b
  rfl

theorem string_data_inj {a b : String} (h : a.data = b.data) : a = b := by
  cases a
  cases b
  exact congrArg String.mk h

theorem startsWithChars_append (xs ys : List Char) :
    startsWithChars xs (xs ++ ys) = true := by
  induction xs with
  | nil => rfl
  | cons a as ih => simp [startsWithChars, ih]

/-! ### Decomposition of `analyze_releases` -/

theorem analyzeReleases_ok {rs : List RealData.PyRelease} {a : RealData.ReleaseAnalysis}
    (h : RealData.analyzeReleases rs = .ok a) :
    ∃ s f brk, RealData.analyzeReleasesAux rs = .ok (s, f, brk) ∧
      a = { recent_releases := s
            key_features := f.eraseDups.take 5
            breaking_changes := brk.eraseDups.take 3 } := by
  cases haux : RealData.analyzeReleasesAux rs with
  | error e =>
    rw [RealData.analyzeReleases, haux] at h
    cases h
  | ok t =>
    obtain ⟨s, f, brk⟩ := t
    rw [RealData.analyzeReleases, haux] at h
    refine ⟨s, f, brk, rfl, ?_⟩
    exact (Except.ok.injEq _ _ ▸ h).symm

/-- C1: for every input, `analyze_releases` emits at most 5 `key_features`
and at most 3 `breaking_changes`, and `analyze_issues` emits at most 5
recurring patterns, at most 5 critical bugs and at most 5 feature
requests, regardless of how many releases or issues are supplied. -/
theorem claim1_output_caps (rs : List RealData.PyRelease) (a : RealData.ReleaseAnalysis)
    (issues : List RealData.PyIssue)
    (h : RealData.analyzeReleases rs = .ok a) :
    a.key_features.length ≤ 5 ∧
    a.breaking_changes.length ≤ 3 ∧
    (RealData.analyzeIssues issues).recurring_issues.length ≤ 5 ∧
    (RealData.analyzeIssues issues).critical_bugs.length ≤ 5 ∧
    (RealData.analyzeIssues issues).feature_requests.length ≤ 5 := by
  obtain ⟨s, f, brk, _, ha⟩ := analyzeReleases_ok h
  subst ha
  refine ⟨?_, ?_, ?_, ?_, ?_⟩
  · simp
  · simp
  · rw [RealData.analyzeIssues]
    by_cases hi : issues.isEmpty
    · simp [hi]
    · have h2 : (mostCommon 5 (counterOf ((issues.map fun i =>
          pyLower i.title).flatMap RealData.importantWords))).length ≤ 5 := by
        rw [mostCommon, List.length_take]
        exact Nat.min_le_left _ _
      simp only [hi, Bool.false_eq_true, if_false, List.length_map]
      exact le_trans (List.length_filter_le _ _) h2
  · rw [RealData.analyzeIssues]
    by_cases hi : issues.isEmpty
    · simp [hi]
    · simp only [hi, if_false]
      simp
  · rw [RealData.analyzeIssues]
    by_cases hi : issues.isEmpty
    · simp [hi]
    · simp only [hi, if_false]
      simp

/-- C1 witness: the caps hold at a concrete instance. -/
theorem claim1_output_caps_witness :
    (RealData.ReleaseAnalysis.mk [] [] []).key_features.length ≤ 5 ∧
    (RealData.ReleaseAnalysis.mk [] [] []).breaking_changes.length ≤ 3 ∧
    (RealData.analyzeIssues []).recurring_issues.length ≤ 5 ∧
    (RealData.analyzeIssues []).critical_bugs.length ≤ 5 ∧
    (RealData.analyzeIssues []).feature_requests.length ≤ 5 :=
  claim1_output_caps [] (RealData.ReleaseAnalysis.mk [] [] []) [] rfl

/-- C2: `analyze_issues` computes `recurring_issues` exactly by the
pipeline — lower-case each title, tokenize on word runs, discard short and
stop-listed tokens, count across titles in first-insertion order, take the
5 most frequent with ties broken stably by first insertion, keep counts
above 1, capitalize for display; in particular the three scenario titles
yield the pattern `Performance` with count 2 and no single-occurrence
token. -/
theorem claim2_pattern_mining (issues : List RealData.PyIssue) :
    (RealData.analyzeIssues issues).recurring_issues
        = RealData.recurringPipeline (issues.map RealData.PyIssue.title)
    ∧ (∀ (c : List (String × Nat)) (n : Nat),
        (sortDesc c).filter (fun q => q.2 == n) = c.filter (fun q => q.2 == n))
    ∧ (RealData.analyzeIssues
        [⟨"Build performance regression", []⟩, ⟨"Build performance regression", []⟩,
         ⟨"Unrelated typo fix", []⟩]).recurring_issues
        = [⟨"Build", 2⟩, ⟨"Performance", 2⟩, ⟨"Regression", 2⟩] := by
  refine ⟨?_, fun c n => filter_sortDesc n c, by decide⟩
  cases issues with
  | nil => rfl
  | cons i is =>
    simp only [RealData.analyzeIssues, RealData.recurringPipeline, List.map_map]
    rfl

/-- C9 counterexample: a non-draft release whose body carries JSON `null`
(Python `None`) makes `analyze_releases` raise a `TypeError` at line 67
(`len(None)`), so the function is not total on such inputs. -/
theorem claim9_counterexample :
    RealData.analyzeReleases [⟨false, some "v1", some "2025-01-01", none⟩]
      = .error () := rfl

/-- C9 (amended): a release whose body is the empty string — which is also
what `release.get("body", "")` yields when the key is absent — contributes
nothing to `key_features` or `breaking_changes` and raises no error; only
a body holding `None` reaches the exceptional case. -/
theorem claim9_empty_body (r : RealData.PyRelease) (rs : List RealData.PyRelease)
    (a : RealData.ReleaseAnalysis)
    (hbody : r.body = some "") (h : RealData.analyzeReleases rs = .ok a) :
    ∃ a', RealData.analyzeReleases (r :: rs) = .ok a' ∧
      a'.key_features = a.key_features ∧
      a'.breaking_changes = a.breaking_changes := by
  obtain ⟨s, f, brk, haux, ha⟩ := analyzeReleases_ok h
  by_cases hd : r.draft
  · have e : RealData.analyzeReleasesAux (r :: rs) = RealData.analyzeReleasesAux rs := by
      simp [RealData.analyzeReleasesAux, hd]
    refine ⟨a, ?_, rfl, rfl⟩
    calc RealData.analyzeReleases (r :: rs)
        = RealData.analyzeReleases rs := by
          simp only [RealData.analyzeReleases, e]
      _ = .ok a := h
  · have hf : RealData.extractLines RealData.featureKeywords "" = [] := rfl
    have hb : RealData.extractLines RealData.breakingKeywords "" = [] := rfl
    have e : RealData.analyzeReleasesAux (r :: rs)
        = .ok (RealData.mkSummary r "" :: s, f, brk) := by
      simp [RealData.analyzeReleasesAux, hd, hbody, haux, hf, hb]
      rfl
    refine ⟨{ recent_releases := RealData.mkSummary r "" :: s
              key_features := f.eraseDups.take 5
              breaking_changes := brk.eraseDups.take 3 }, ?_, ?_, ?_⟩
    · simp [RealData.analyzeReleases, e]
      rfl
    · rw [ha]
    · rw [ha]

/-- C9 witness: the amended statement at a concrete empty-body release. -/
theorem claim9_empty_body_witness :
    ∃ a', RealData.analyzeReleases [⟨false, some "v", some "", some ""⟩] = .ok a' ∧
      a'.key_features = (RealData.ReleaseAnalysis.mk [] [] []).key_features ∧
      a'.breaking_changes = (RealData.ReleaseAnalysis.mk [] [] []).breaking_changes :=
  claim9_empty_body ⟨false, some "v", some "", some ""⟩ []
    (RealData.ReleaseAnalysis.mk [] [] []) rfl rfl

/-! ### Release-analyzer decomposition lemmas -/

theorem analyzeReleasesAux_filter (rs : List RealData.PyRelease) :
    RealData.analyzeReleasesAux (rs.filter fun r => !r.draft)
      = RealData.analyzeReleasesAux rs := by
  induction rs with
  | nil => rfl
  | cons r rs ih =>
    by_cases hd : r.draft
    · simp [List.filter_cons, hd, RealData.analyzeReleasesAux, ih]
    · cases hb : r.body with
      | none => simp [List.filter_cons, hd, RealData.analyzeReleasesAux, hb]
      | some b => simp [List.filter_cons, hd, RealData.analyzeReleasesAux, hb, ih]

theorem analyzeReleasesAux_collect (rs : List RealData.PyRelease)
    (s : List RealData.ReleaseSummary) (f brk : List String)
    (h : RealData.analyzeReleasesAux rs = .ok (s, f, brk)) :
    f = RealData.collectLines RealData.featureKeywords rs ∧
    brk = RealData.collectLines RealData.breakingKeywords rs := by
  induction rs generalizing s f brk with
  | nil =>
    rw [RealData.analyzeReleasesAux] at h
    obtain ⟨h1, h2, h3⟩ : s = [] ∧ f = [] ∧ brk = [] := by
      have := (Except.ok.injEq _ _ ▸ h)
      exact ⟨congrArg Prod.fst this.symm,
        congrArg (fun t => t.2.1) this.symm, congrArg (fun t => t.2.2) this.symm⟩
    subst h2
    subst h3
    simp [RealData.collectLines]
  | cons r rs ih =>
    by_cases hd : r.draft
    · rw [show RealData.analyzeReleasesAux (r :: rs) = RealData.analyzeReleasesAux rs by
        simp [RealData.analyzeReleasesAux, hd]] at h
      obtain ⟨h1, h2⟩ := ih _ _ _ h
      simp [RealData.collectLines, hd] at h1 h2 ⊢
      exact ⟨h1, h2⟩
    · cases hb : r.body with
      | none =>
        rw [show RealData.analyzeReleasesAux (r :: rs) = .error () by
          simp [RealData.analyzeReleasesAux, hd, hb]] at h
        cases h
      | some b =>
        cases haux : RealData.analyzeReleasesAux rs with
        | error e =>
          rw [show RealData.analyzeReleasesAux (r :: rs) = .error e by
            simp [RealData.analyzeReleasesAux, hd, hb, haux]
            rfl] at h
          cases h
        | ok t =>
          obtain ⟨s', f', brk'⟩ := t
          rw [show RealData.analyzeReleasesAux (r :: rs)
              = .ok (RealData.mkSummary r b :: s',
                  RealData.extractLines RealData.featureKeywords b ++ f',
                  RealData.extractLines RealData.breakingKeywords b ++ brk') by
            simp [RealData.analyzeReleasesAux, hd, hb, haux]
            rfl] at h
          have hinj := Except.ok.injEq _ _ ▸ h
          obtain ⟨ihf, ihb⟩ := ih _ _ _ haux
          constructor
          · have : RealData.extractLines RealData.featureKeywords b ++ f' = f :=
              congrArg (fun t => t.2.1) hinj
            rw [← this, ihf]
            simp [RealData.collectLines, hd, hb]
          · have : RealData.extractLines RealData.breakingKeywords b ++ brk' = brk :=
              congrArg (fun t => t.2.2) hinj
            rw [← this, ihb]
            simp [RealData.collectLines, hd, hb]

/-- C3: `analyze_releases` considers only non-draft releases; it builds
`key_features` from the per-release extracted feature lines (lower-cased
body, line split, keyword filter, at most 2 lines per release), pooled
across releases, deduplicated and capped at 5, and `breaking_changes` the
same way with the breaking keywords and cap 3; the scenario body
contributes its "dark mode" feature line and its "removed legacy config"
breaking line. -/
theorem claim3_feature_extraction (rs : List RealData.PyRelease)
    (a : RealData.ReleaseAnalysis) (h : RealData.analyzeReleases rs = .ok a) :
    RealData.analyzeReleases (rs.filter fun r => !r.draft) = .ok a
    ∧ a.key_features
        = (RealData.collectLines RealData.featureKeywords rs).eraseDups.take 5
    ∧ a.breaking_changes
        = (RealData.collectLines RealData.breakingKeywords rs).eraseDups.take 3
    ∧ RealData.analyzeReleases [⟨false, some "v1.0", some "2025-01-01T00:00:00Z",
          some "Added new feature: dark mode\nBreaking: removed legacy config"⟩]
        = .ok ⟨[⟨some "v1.0", "2025-01-01",
            "Added new feature: dark mode\nBreaking: removed legacy config"⟩],
          ["added new feature: dark mode"], ["breaking: removed legacy config"]⟩
    ∧ strContains "added new feature: dark mode" "dark mode" = true
    ∧ strContains "breaking: removed legacy config" "removed legacy config" = true := by
  obtain ⟨s, f, brk, haux, ha⟩ := analyzeReleases_ok h
  obtain ⟨hcf, hcb⟩ := analyzeReleasesAux_collect rs s f brk haux
  refine ⟨?_, ?_, ?_, rfl, rfl, rfl⟩
  · rw [← h]
    simp only [RealData.analyzeReleases, analyzeReleasesAux_filter]
  · rw [ha, ← hcf]
  · rw [ha, ← hcb]

/-- C3 witness: the statement instantiated at the scenario release. -/
theorem claim3_feature_extraction_witness :
    RealData.analyzeReleases ([⟨false, some "v1.0", some "2025-01-01T00:00:00Z",
        some "Added new feature: dark mode\nBreaking: removed legacy config"⟩].filter
        fun r => !r.draft)
      = .ok ⟨[⟨some "v1.0", "2025-01-01",
          "Added new feature: dark mode\nBreaking: removed legacy config"⟩],
        ["added new feature: dark mode"], ["breaking: removed legacy config"]⟩ :=
  (claim3_feature_extraction
    [⟨false, some "v1.0", some "2025-01-01T00:00:00Z",
      some "Added new feature: dark mode\nBreaking: removed legacy config"⟩]
    ⟨[⟨some "v1.0", "2025-01-01",
        "Added new feature: dark mode\nBreaking: removed legacy config"⟩],
      ["added new feature: dark mode"], ["breaking: removed legacy config"]⟩ rfl).1

/-! ### Trend-aggregation lemmas -/

theorem mem_mostCommon_count {n : Nat} {ws : List String} {p : String × Nat}
    (hp : p ∈ mostCommon n (counterOf ws)) : p.2 = ws.count p.1 :=
  mem_counterOf_count (mem_sortDesc.mp (List.mem_of_mem_take hp))

theorem commonFocus_ne_default (f d : String) (hd : d ∈ RealData.defaultTrends) :
    "Common focus: " ++ f ≠ d := by
  intro h
  have h2 : "Common focus: ".data ++ f.data = d.data := by
    rw [← string_data_append, h]
  have h3 : startsWithChars "Common focus: ".data d.data = true := by
    rw [← h2]
    exact startsWithChars_append _ _
  simp only [RealData.defaultTrends] at hd
  fin_cases hd <;> exact absurd h3 (by decide)

theorem commonFocus_inj {f g : String}
    (h : "Common focus: " ++ f = "Common focus: " ++ g) : f = g := by
  have h2 := congrArg String.data h
  rw [string_data_append, string_data_append] at h2
  exact string_data_inj (List.append_cancel_left h2)

/-- C4: the dashboard's trend aggregator emits at most 3 trends; every
`"Common focus: "` trend names a pooled feature with global count above 1
(so a feature reported by a single repository alone never yields one);
when no pooled feature recurs, the three hard-coded default trends are
emitted instead of an empty list; every top-3 feature with count above 1
does get its trend; and the retained top entries are ordered by
non-increasing global frequency (ties kept in first-insertion order by
`sortDesc`). -/
theorem claim4_trend_aggregation (analyses : List RealData.DashAnalysis) :
    (RealData.industryTrends analyses).length ≤ 3
    ∧ (∀ f, ("Common focus: " ++ f) ∈ RealData.industryTrends analyses →
        1 < (RealData.allFeatures analyses).count f)
    ∧ ((∀ f, (RealData.allFeatures analyses).count f ≤ 1) →
        RealData.industryTrends analyses = RealData.defaultTrends)
    ∧ (∀ f, f ∈ (mostCommon 3 (counterOf (RealData.allFeatures analyses))).map Prod.fst →
        1 < (RealData.allFeatures analyses).count f →
        ("Common focus: " ++ f) ∈ RealData.industryTrends analyses)
    ∧ ((mostCommon 3 (counterOf (RealData.allFeatures analyses))).filter
        fun p => p.2 > 1).Pairwise fun p q => q.2 ≤ p.2 := by
  have hunfold : RealData.industryTrends analyses =
      (if (((mostCommon 3 (counterOf (RealData.allFeatures analyses))).filter
            fun p => p.2 > 1).map fun p => "Common focus: " ++ p.1).isEmpty
       then RealData.defaultTrends
       else ((mostCommon 3 (counterOf (RealData.allFeatures analyses))).filter
            fun p => p.2 > 1).map fun p => "Common focus: " ++ p.1) := rfl
  refine ⟨?_, ?_, ?_, ?_, ?_⟩
  · rw [hunfold]
    by_cases he : (((mostCommon 3 (counterOf (RealData.allFeatures analyses))).filter
        fun p => p.2 > 1).map fun p => "Common focus: " ++ p.1).isEmpty
    · simp [he, RealData.defaultTrends]
    · simp only [he, if_false, Bool.false_eq_true]
      calc (((mostCommon 3 _).filter fun p => p.2 > 1).map
            fun p => "Common focus: " ++ p.1).length
          = ((mostCommon 3 (counterOf (RealData.allFeatures analyses))).filter
              fun p => p.2 > 1).length := List.length_map _ _
        _ ≤ (mostCommon 3 (counterOf (RealData.allFeatures analyses))).length :=
            List.length_filter_le _ _
        _ ≤ 3 := by
            rw [mostCommon, List.length_take]
            exact Nat.min_le_left _ _
  · intro f hf
    rw [hunfold] at hf
    by_cases he : (((mostCommon 3 (counterOf (RealData.allFeatures analyses))).filter
        fun p => p.2 > 1).map fun p => "Common focus: " ++ p.1).isEmpty
    · rw [if_pos he] at hf
      exact absurd rfl (commonFocus_ne_default f _ hf)
    · rw [if_neg he] at hf
      obtain ⟨p, hp, hpe⟩ := List.mem_map.mp hf
      obtain ⟨hptop, hpgt⟩ := List.mem_filter.mp hp
      have hpf : p.1 = f := commonFocus_inj hpe
      have hcnt := mem_mostCommon_count hptop
      rw [hpf] at hcnt
      rw [← hcnt]
      simpa using hpgt
  · intro hall
    rw [hunfold]
    have hfe : ((mostCommon 3 (counterOf (RealData.allFeatures analyses))).filter
        fun p => p.2 > 1) = [] := by
      rw [List.filter_eq_nil_iff]
      intro p hp
      have := mem_mostCommon_count hp
      have hle := hall p.1
      simp only [decide_eq_true_eq]
      omega
    simp [hfe]
  · intro f hf hcnt
    obtain ⟨p, hptop, hpf⟩ := List.mem_map.mp hf
    have hpc := mem_mostCommon_count hptop
    have hpflt : p ∈ ((mostCommon 3 (counterOf (RealData.allFeatures analyses))).filter
        fun p => p.2 > 1) := by
      rw [List.mem_filter]
      refine ⟨hptop, ?_⟩
      simp only [decide_eq_true_eq]
      rw [hpc, hpf]
      exact hcnt
    have htr : ("Common focus: " ++ f) ∈
        (((mostCommon 3 (counterOf (RealData.allFeatures analyses))).filter
          fun p => p.2 > 1).map fun p => "Common focus: " ++ p.1) := by
      rw [← hpf]
      exact List.mem_map_of_mem _ hpflt
    have hne : ¬ (((mostCommon 3 (counterOf (RealData.allFeatures analyses))).filter
        fun p => p.2 > 1).map fun p => "Common focus: " ++ p.1).isEmpty := by
      intro he
      rw [List.isEmpty_iff] at he
      rw [he] at htr
      cases htr
    rw [hunfold, if_neg hne]
    exact htr
  · have hs := sortDesc_sorted (counterOf (RealData.allFeatures analyses))
    have h1 : ((sortDesc (counterOf (RealData.allFeatures analyses))).take 3).Pairwise
        (fun p q : String × Nat => q.2 ≤ p.2) :=
      hs.sublist (List.take_sublist _ _)
    exact h1.sublist (List.filter_sublist _)

/-- C4 witness: two repositories both reporting "TypeScript support"
produce the common-focus trend, and a pool with no recurrence falls back
to the default trends. -/
theorem claim4_trend_aggregation_witness :
    ("Common focus: " ++ "TypeScript support") ∈
      RealData.industryTrends [⟨["TypeScript support"], []⟩, ⟨["TypeScript support"], []⟩]
    ∧ RealData.industryTrends [⟨["Solo feature"], []⟩] = RealData.defaultTrends := by
  constructor
  · exact (claim4_trend_aggregation
      [⟨["TypeScript support"], []⟩, ⟨["TypeScript support"], []⟩]).2.2.2.1
      "TypeScript support" (by decide) (by decide)
  · exact (claim4_trend_aggregation [⟨["Solo feature"], []⟩]).2.2.1
      (by intro f; by_cases hf : f = "Solo feature" <;> simp [RealData.allFeatures, hf])

/-! ### Cache and workflow lemmas -/

theorem find?_append_of_none {α : Type} (p : α → Bool) {l₁ : List α} (l₂ : List α)
    (h : l₁.find? p = none) : (l₁ ++ l₂).find? p = l₂.find? p := by
  induction l₁ with
  | nil => rfl
  | cons a l₁ ih =>
    cases hpa : p a with
    | true => rw [List.find?_cons_of_pos _ hpa] at h; cases h
    | false =>
      rw [List.find?_cons_of_neg _ (by simp [hpa])] at h
      rw [List.cons_append, List.find?_cons_of_neg _ (by simp [hpa])]
      exact ih h

theorem find?_append_of_some {α : Type} (p : α → Bool) {l₁ : List α} (l₂ : List α)
    {a : α} (h : l₁.find? p = some a) : (l₁ ++ l₂).find? p = some a := by
  induction l₁ with
  | nil => cases h
  | cons b l₁ ih =>
    cases hpb : p b with
    | true =>
      rw [List.find?_cons_of_pos _ hpb] at h
      rw [List.cons_append, List.find?_cons_of_pos _ hpb]
      exact h
    | false =>
      rw [List.find?_cons_of_neg _ (by simp [hpb])] at h
      rw [List.cons_append, List.find?_cons_of_neg _ (by simp [hpb])]
      exact ih h

theorem getCachedReport_none_iff (state : List CI.CacheEntry) (W : String) :
    CI.getCachedReport state W = none ↔
      (state.find? fun e => e.week == W) = none := by
  rw [CI.getCachedReport]
  cases h : state.find? fun e => e.week == W with
  | none => simp
  | some e => simp

theorem getCachedReport_some_iff (state : List CI.CacheEntry) (W : String)
    (r : CI.WeeklyReport) :
    CI.getCachedReport state W = some r ↔
      ∃ e, (state.find? fun e => e.week == W) = some e ∧ r = e.data := by
  rw [CI.getCachedReport]
  cases h : state.find? fun e => e.week == W with
  | none => simp
  | some e =>
    simp only [Option.some.injEq]
    constructor
    · intro he
      exact ⟨e, rfl, he.symm⟩
    · rintro ⟨e', he', hr⟩
      cases he'
      exact hr.symm

theorem runPipeline_report_some {state : List CI.CacheEntry} {W : String}
    {results : List (Option CI.CompetitorAnalysis)}
    {gen : List CI.CompetitorAnalysis → Option CI.WeeklyReport} {wr : CI.WeeklyReport}
    (h : (CI.runPipeline state W results gen).report = some wr) :
    CI.runPipeline state W results gen =
      { report := some wr
        state := state ++ [{ week := W, data := wr }]
        fetches := results.length } := by
  rw [CI.runPipeline] at h ⊢
  by_cases hA : (results.filterMap id).isEmpty
  · simp [hA] at h
  · simp only [hA, Bool.false_eq_true, if_false] at h ⊢
    cases hg : gen (results.filterMap id) with
    | none => rw [hg] at h; simp at h
    | some wr' =>
      rw [hg] at h
      have hww : wr' = wr := by simpa using h
      subst hww
      rfl

theorem run_state_cases (state : List CI.CacheEntry) (W : String) (uc : Bool)
    (results : List (Option CI.CompetitorAnalysis))
    (gen : List CI.CompetitorAnalysis → Option CI.WeeklyReport) :
    (CI.run state W uc results gen).state = state ∨
    ∃ wr, (CI.run state W uc results gen).report = some wr ∧
      (CI.run state W uc results gen).state = state ++ [{ week := W, data := wr }] := by
  have hpipe : ∀ _ : Unit,
      (CI.runPipeline state W results gen).state = state ∨
      ∃ wr, (CI.runPipeline state W results gen).report = some wr ∧
        (CI.runPipeline state W results gen).state
          = state ++ [{ week := W, data := wr }] := by
    intro _
    rw [CI.runPipeline]
    by_cases hA : (results.filterMap id).isEmpty
    · simp [hA]
    · simp only [hA, Bool.false_eq_true, if_false]
      cases hg : gen (results.filterMap id) with
      | none => simp
      | some wr => exact Or.inr ⟨wr, rfl, rfl⟩
  rw [CI.run]
  cases uc with
  | false => exact hpipe ()
  | true =>
    cases hc : CI.getCachedReport state W with
    | none => simpa using hpipe ()
    | some r => simp

/-- C5: once a report is cached under the current ISO week key, a
cache-enabled `run` during that week returns exactly the report that was
cached (the dump/validate round trip is the identity on these plain-data
models), performs zero fetches, and leaves the cache unchanged. -/
theorem claim5_cache_round_trip (state : List CI.CacheEntry) (W : String)
    (results : List (Option CI.CompetitorAnalysis))
    (gen : List CI.CompetitorAnalysis → Option CI.WeeklyReport)
    (results2 : List (Option CI.CompetitorAnalysis))
    (gen2 : List CI.CompetitorAnalysis → Option CI.WeeklyReport)
    (wr : CI.WeeklyReport)
    (h0 : CI.getCachedReport state W = none)
    (h1 : (CI.run state W false results gen).report = some wr) :
    CI.run ((CI.run state W false results gen).state) W true results2 gen2
      = { report := some wr
          state := (CI.run state W false results gen).state
          fetches := 0 } := by
  have hrun : CI.run state W false results gen = CI.runPipeline state W results gen := rfl
  rw [hrun] at h1 ⊢
  have hpipe := runPipeline_report_some h1
  rw [hpipe]
  have hf0 : (state.find? fun e => e.week == W) = none :=
    (getCachedReport_none_iff state W).mp h0
  have hfind : ((state ++ [CI.CacheEntry.mk W wr]).find?
      fun e => e.week == W) = some (CI.CacheEntry.mk W wr) := by
    rw [find?_append_of_none _ _ hf0]
    exact List.find?_cons_of_pos _ (by simp)
  have hcache : CI.getCachedReport (state ++ [CI.CacheEntry.mk W wr]) W
      = some wr := by
    rw [CI.getCachedReport, hfind]
  rw [CI.run, hcache]
  rfl

/-- C5 witness: a concrete run-then-cached-run round trip. -/
theorem claim5_cache_round_trip_witness :
    CI.run ((CI.run [] "2025-W41" false [some CI.sampleAnalysis]
        (fun _ => some CI.sampleReport)).state) "2025-W41" true []
        (fun _ => none)
      = { report := some CI.sampleReport
          state := (CI.run [] "2025-W41" false [some CI.sampleAnalysis]
            (fun _ => some CI.sampleReport)).state
          fetches := 0 } :=
  claim5_cache_round_trip [] "2025-W41" [some CI.sampleAnalysis]
    (fun _ => some CI.sampleReport) [] (fun _ => none) CI.sampleReport rfl rfl

/-- C6: when no repository yields a usable analysis the run returns no
report and leaves the cache untouched, and in general the cache is only
ever written when a report was successfully assembled. -/
theorem claim6_total_failure (state : List CI.CacheEntry) (W : String)
    (results : List (Option CI.CompetitorAnalysis))
    (gen : List CI.CompetitorAnalysis → Option CI.WeeklyReport)
    (h : results.filterMap id = []) :
    CI.run state W false results gen
      = { report := none, state := state, fetches := results.length }
    ∧ (∀ uc, (CI.run state W uc results gen).state = state)
    ∧ (∀ (uc : Bool) (results2 : List (Option CI.CompetitorAnalysis))
        (gen2 : List CI.CompetitorAnalysis → Option CI.WeeklyReport),
        (CI.run state W uc results2 gen2).state ≠ state →
        ∃ wr, (CI.run state W uc results2 gen2).report = some wr) := by
  have hpipe : CI.runPipeline state W results gen
      = { report := none, state := state, fetches := results.length } := by
    rw [CI.runPipeline]
    simp [h]
  refine ⟨hpipe, ?_, ?_⟩
  · intro uc
    cases uc with
    | false => rw [show CI.run state W false results gen
        = CI.runPipeline state W results gen from rfl, hpipe]
    | true =>
      rw [CI.run]
      cases hc : CI.getCachedReport state W with
      | none => simp [hpipe]
      | some r => simp
  · intro uc results2 gen2 hne
    rcases run_state_cases state W uc results2 gen2 with hs | ⟨wr, hr, _⟩
    · exact absurd hs hne
    · exact ⟨wr, hr⟩

/-- C6 witness: two failed competitors, no report, cache untouched. -/
theorem claim6_total_failure_witness :
    CI.run [] "2025-W41" false [none, none] (fun _ => none)
      = { report := none, state := [], fetches := 2 } :=
  (claim6_total_failure [] "2025-W41" [none, none] (fun _ => none) rfl).1

/-- C10: `get_cached_report` is a first-match linear scan — it returns the
report of the earliest-appended entry for the week, or nothing when no
entry matches; `run` only ever appends to the cache, so an existing
lookup result is never changed by later runs and all previously cached
weeks remain present. -/
theorem claim10_cache_append_semantics (state : List CI.CacheEntry) (W : String)
    (uc : Bool) (results : List (Option CI.CompetitorAnalysis))
    (gen : List CI.CompetitorAnalysis → Option CI.WeeklyReport) :
    ((∀ e ∈ state, e.week ≠ W) → CI.getCachedReport state W = none)
    ∧ (∀ pre e post, state = pre ++ e :: post → (∀ e2 ∈ pre, e2.week ≠ W) →
        e.week = W → CI.getCachedReport state W = some e.data)
    ∧ (∀ W' r, CI.getCachedReport state W' = some r →
        CI.getCachedReport (CI.run state W uc results gen).state W' = some r)
    ∧ ∃ t, (CI.run state W uc results gen).state = state ++ t := by
  refine ⟨?_, ?_, ?_, ?_⟩
  · intro hall
    rw [getCachedReport_none_iff]
    rw [List.find?_eq_none]
    intro e he
    simpa using hall e he
  · intro pre e post hstate hpre he
    subst hstate
    have hfpre : (pre.find? fun e2 => e2.week == W) = none := by
      rw [List.find?_eq_none]
      intro e2 he2
      simpa using hpre e2 he2
    have : ((pre ++ e :: post).find? fun e2 => e2.week == W) = some e := by
      rw [find?_append_of_none _ _ hfpre]
      exact List.find?_cons_of_pos _ (by simp [he])
    rw [CI.getCachedReport, this]
  · intro W' r hr
    obtain ⟨e, hfe, hre⟩ := (getCachedReport_some_iff state W' r).mp hr
    rcases run_state_cases state W uc results gen with hs | ⟨wr, _, hs⟩
    · rw [hs]
      exact hr
    · rw [hs, CI.getCachedReport, find?_append_of_some _ _ hfe, hre]
  · rcases run_state_cases state W uc results gen with hs | ⟨wr, _, hs⟩
    · exact ⟨[], by simpa using hs⟩
    · exact ⟨[{ week := W, data := wr }], hs⟩

/-- C10 witness: with two entries cached under the same week, the lookup
returns the older one; a week with no entry yields nothing. -/
theorem claim10_cache_append_semantics_witness :
    CI.getCachedReport
        [⟨"2025-W40", CI.sampleReport⟩, ⟨"2025-W40", CI.sampleReport2⟩] "2025-W40"
      = some CI.sampleReport
    ∧ CI.getCachedReport [⟨"2025-W40", CI.sampleReport⟩] "2025-W41" = none :=
  ⟨(claim10_cache_append_semantics
      [⟨"2025-W40", CI.sampleReport⟩, ⟨"2025-W40", CI.sampleReport2⟩] "2025-W40"
      false [] (fun _ => none)).2.1
      [] ⟨"2025-W40", CI.sampleReport⟩ [⟨"2025-W40", CI.sampleReport2⟩]
      rfl (by simp) rfl,
   (claim10_cache_append_semantics [⟨"2025-W40", CI.sampleReport⟩] "2025-W41"
      false [] (fun _ => none)).1 (by decide)⟩

/-! ### Fetcher lemmas -/

theorem truncRelease_bound {r : Agno.ReleaseIn} {out : Agno.ReleaseOut}
    (h : Agno.truncRelease r = .ok out) : pyLen out.body ≤ 500 := by
  rw [Agno.truncRelease] at h
  cases hb : r.body with
  | none => rw [hb] at h; cases h
  | some b =>
    rw [hb] at h
    have : out = ⟨r.tag_name, r.name, pyTake 500 b, r.published_at, r.html_url⟩ :=
      ((Except.ok.injEq _ _).mp h).symm
    subst this
    simp only [pyLen, pyTake, List.length_take]
    exact Nat.min_le_left _ _

theorem mapTruncReleases_bound :
    ∀ (l : List Agno.ReleaseIn) (out : List Agno.ReleaseOut),
      Agno.mapTruncReleases l = .ok out → ∀ r ∈ out, pyLen r.body ≤ 500 := by
  intro l
  induction l with
  | nil =>
    intro out h r hr
    rw [Agno.mapTruncReleases] at h
    have : out = [] := ((Except.ok.injEq _ _).mp h).symm
    subst this
    cases hr
  | cons a l ih =>
    intro out h r hr
    rw [Agno.mapTruncReleases] at h
    cases ha : Agno.truncRelease a with
    | error e => rw [ha] at h; cases h
    | ok o =>
      rw [ha] at h
      cases hl : Agno.mapTruncReleases l with
      | error e => rw [hl] at h; cases h
      | ok os =>
        rw [hl] at h
        have hoc : out = o :: os := ((Except.ok.injEq _ _).mp h).symm
        subst hoc
        rcases List.mem_cons.mp hr with hr | hr
        · exact hr ▸ truncRelease_bound ha
        · exact ih os hl r hr

theorem truncIssue_bound (i : Agno.IssueIn) : pyLen (Agno.truncIssue i).body ≤ 200 := by
  simp only [Agno.truncIssue, pyLen, pyTake, List.length_take]
  exact Nat.min_le_left _ _

theorem agnoGetGithubDataBody_ok {env : Agno.FetchEnv} {d : Agno.GithubData}
    (h : Agno.getGithubDataBody env = .ok d) :
    (∃ rin, Agno.mapTruncReleases rin = .ok d.releases) ∧
    (∃ iin : List Agno.IssueIn, d.issues = iin.map Agno.truncIssue) := by
  obtain ⟨orr, oir⟩ := env
  cases orr with
  | none => cases h
  | some rr =>
    simp only [Agno.getGithubDataBody] at h
    cases hmap : Agno.mapTruncReleases ((if rr.status == 200 then rr.data else []).take 3) with
    | error e => rw [hmap] at h; cases h
    | ok lim =>
      rw [hmap] at h
      cases oir with
      | none => cases h
      | some ir =>
        have hd : d = Agno.GithubData.mk lim
            (((if ir.status == 200 then ir.data else []).take 20).map Agno.truncIssue) :=
          ((Except.ok.injEq _ _).mp h).symm
        subst hd
        exact ⟨⟨_, hmap⟩, ⟨_, rfl⟩⟩

/-- C8 counterexample: the real-data fetcher returns release objects
untruncated — a 501-character body passes through unchanged, so it is not
the case that every fetcher truncates text fields before the bundle
leaves it. -/
theorem claim8_counterexample :
    (RealData.getGithubData
        ⟨some ⟨200, [⟨false, some "v", some "", some longBody⟩]⟩,
         some ⟨200, []⟩⟩).releases
      = [⟨false, some "v", some "", some longBody⟩]
    ∧ 500 < pyLen longBody := by
  constructor
  · rfl
  · show 500 < (String.mk (List.replicate 501 'a')).data.length
    rw [show (String.mk (List.replicate 501 'a')).data
        = List.replicate 501 'a' from rfl, List.length_replicate]
    omega

/-- C8 (amended): the agno-variant fetcher does truncate the text fields
before the bundle leaves it — every release body it returns has at most
500 characters and every issue body at most 200 — while the real-data
fetcher passes bodies through untruncated. -/
theorem claim8_agno_truncation (env : Agno.FetchEnv) :
    (∀ r ∈ (Agno.getGithubData env).releases, pyLen r.body ≤ 500)
    ∧ (∀ i ∈ (Agno.getGithubData env).issues, pyLen i.body ≤ 200) := by
  rw [Agno.getGithubData]
  cases hb : Agno.getGithubDataBody env with
  | error e =>
    constructor
    · intro r hr
      cases hr
    · intro i hi
      cases hi
  | ok d =>
    obtain ⟨⟨rin, hrin⟩, ⟨iin, hiin⟩⟩ := agnoGetGithubDataBody_ok hb
    constructor
    · intro r hr
      exact mapTruncReleases_bound rin d.releases hrin r hr
    · intro i hi
      rw [hiin] at hi
      obtain ⟨i0, _, hi0⟩ := List.mem_map.mp hi
      exact hi0 ▸ truncIssue_bound i0

/-- C8 witness: the bounds at a concrete fetch containing one release and
one issue. -/
theorem claim8_agno_truncation_witness :
    pyLen (Agno.ReleaseOut.mk "v1" "rel" (pyTake 500 "short body") "2025" "url").body ≤ 500
    ∧ pyLen (Agno.truncIssue ⟨"t", some "issue body", [], "open", "2025", "url"⟩).body ≤ 200 :=
  ⟨(claim8_agno_truncation
      ⟨some ⟨200, [⟨"v1", "rel", some "short body", "2025", "url"⟩]⟩,
       some ⟨200, []⟩⟩).1
      (Agno.ReleaseOut.mk "v1" "rel" (pyTake 500 "short body") "2025" "url") (by decide),
   (claim8_agno_truncation
      ⟨some ⟨200, []⟩,
       some ⟨200, [⟨"t", some "issue body", [], "open", "2025", "url"⟩]⟩⟩).2
      (Agno.truncIssue ⟨"t", some "issue body", [], "open", "2025", "url"⟩) (by decide)⟩

/-- C7 counterexample: with a 404 on both endpoints the real-data fetcher
still returns the bundle with status `"success"` — no fetch-failed
condition is signalled — and with a 404 on releases but a 200 on issues
the returned bundle is not empty either. -/
theorem claim7_counterexample :
    RealData.getGithubData ⟨some ⟨404, []⟩, some ⟨404, []⟩⟩
      = { releases := [], issues := [], status := "success" }
    ∧ (RealData.getGithubData ⟨some ⟨404, []⟩, some ⟨404, []⟩⟩).status ≠ "error"
    ∧ (RealData.getGithubData
        ⟨some ⟨404, []⟩, some ⟨200, [⟨"Crash on startup", []⟩]⟩⟩).issues
      = [⟨"Crash on startup", []⟩] :=
  ⟨rfl, by decide, rfl⟩

/-- C7 (amended): a transport exception on either request yields the empty
bundle with status `"error"` (the fetch-failed signal), the fetcher never
raises past its boundary (its status is always `"success"` or `"error"`),
and the dashboard skips an `"error"` bundle while analyzing a `"success"`
bundle — even an empty one — as ordinary data; a non-success HTTP status,
however, only empties the affected endpoint's list and is reported as
`"success"`, not as a fetch failure. -/
theorem claim7_fetch_error_handling (env : RealData.FetchEnv) :
    ((env.releasesResp = none ∨ env.issuesResp = none) →
      RealData.getGithubData env
        = { releases := [], issues := [], status := "error" })
    ∧ ((RealData.getGithubData env).status = "success" ∨
        (RealData.getGithubData env).status = "error")
    ∧ (∀ rr ir, env = ⟨some rr, some ir⟩ → rr.status ≠ 200 →
        (RealData.getGithubData env).releases = [] ∧
        (RealData.getGithubData env).status = "success")
    ∧ (∀ rr ir, env = ⟨some rr, some ir⟩ → ir.status ≠ 200 →
        (RealData.getGithubData env).issues = [] ∧
        (RealData.getGithubData env).status = "success")
    ∧ ((RealData.getGithubData env).status = "error" →
        RealData.processRepo env = none)
    ∧ ((RealData.getGithubData env).status = "success" →
        ∃ x, RealData.processRepo env = some x) := by
  obtain ⟨orr, oir⟩ := env
  refine ⟨?_, ?_, ?_, ?_, ?_, ?_⟩
  · rintro (h | h)
    · have h' : orr = none := h
      subst h'
      rfl
    · have h' : oir = none := h
      subst h'
      cases orr with
      | none => rfl
      | some rr => rfl
  · cases orr with
    | none => exact Or.inr rfl
    | some rr =>
      cases oir with
      | none => exact Or.inr rfl
      | some ir => exact Or.inl rfl
  · intro rr ir henv hst
    injection henv with h1 h2
    subst h1
    subst h2
    have hbeq : (rr.status == 200) = false := beq_eq_false_iff_ne.mpr hst
    constructor
    · simp [RealData.getGithubData, hbeq]
    · rfl
  · intro rr ir henv hst
    injection henv with h1 h2
    subst h1
    subst h2
    have hbeq : (ir.status == 200) = false := beq_eq_false_iff_ne.mpr hst
    constructor
    · simp [RealData.getGithubData, hbeq]
    · rfl
  · intro h
    rw [RealData.processRepo]
    rw [h]
    rfl
  · intro h
    rw [RealData.processRepo]
    rw [h]
    exact ⟨_, rfl⟩

/-- C7 witness: the amended statement at a concrete raising fetch. -/
theorem claim7_fetch_error_handling_witness :
    RealData.getGithubData ⟨none, none⟩
      = { releases := [], issues := [], status := "error" }
    ∧ RealData.processRepo ⟨none, none⟩ = none :=
  ⟨(claim7_fetch_error_handling ⟨none, none⟩).1 (Or.inl rfl),
   (claim7_fetch_error_handling ⟨none, none⟩).2.2.2.2.1 rfl⟩
